import Mathlib

/-!
Verification of apps/stgp_poisson.py against its specification.

Shallow embedding conventions:
* Machine floats are modelled by exact rationals extended with a NaN
  element: `F := Option ℚ`, where `none` is NaN and every arithmetic
  operation propagates it, as IEEE arithmetic does.
* A field (numpy vector / cochain coefficient array) is `Vec := List F`.
  The simplicial complex `S` enters the source only through the cochain
  wrappers `C.CochainP0(S, vec)`, which pair `S` with the coefficient
  vector; the embedding therefore works with the coefficient vectors
  directly.
* External collaborators are parameters: `toolbox.compile` is a function
  `Individual → Vec → Vec → F`, `scipy.optimize.minimize` is a
  `Minimizer` oracle mapping the objective, the start point and the
  per-sample arguments to the point the optimizer reports.
-/

namespace Alpine

/-- A float value: `none` is NaN, `some q` a finite value. -/
abbrev F : Type := Option ℚ

/-- Float addition; NaN propagates. -/
def fadd : F → F → F
  | some a, some b => some (a + b)
  | _, _ => none

/-- Float subtraction; NaN propagates. -/
def fsub : F → F → F
  | some a, some b => some (a - b)
  | _, _ => none

/-- Float multiplication; NaN propagates (0 * NaN is NaN, as for floats). -/
def fmul : F → F → F
  | some a, some b => some (a * b)
  | _, _ => none

/-- Squaring, `x**2`. -/
def fsq (x : F) : F := fmul x x

/-- A field: one float per mesh element. -/
abbrev Vec : Type := List F

/-- Elementwise difference of two equal-length vectors (numpy `-`). -/
def vsub (v w : Vec) : Vec := List.zipWith fsub v w

/-- Elementwise sum of two equal-length vectors (numpy `+`). -/
def vadd (v w : Vec) : Vec := List.zipWith fadd v w

/-- jnp.sum of a vector. -/
def fsum (v : Vec) : F := v.foldr fadd (some 0)

/-- np.linalg.norm(v)**2: in exact arithmetic, the sum of the squares of
the entries. -/
def normSq (v : Vec) : F := fsum (v.map fsq)

/-- Fancy indexing `x[bnodes]`: gather the entries at the given indices
(the program always indexes in range; an out-of-range index yields the
poison value NaN here, where numpy would raise). -/
def gather (x : Vec) (idx : List ℕ) : Vec := idx.map (fun i => x.getD i none)

/-- An individual as the fitness evaluation observes it: `str(individual)`
(its serialized form, used at line 149) and `len(individual)` (the number
of nodes of the expression tree, used at line 154). The tree itself lives
in the external DEAP library; only these observations and the compiled
energy callable enter the evaluated code. -/
structure Individual where
  serialized : List Char
  size : ℕ
deriving DecidableEq

/-- ObjFunction (lines 49-66) after `set_energy_func` has bound the
compiled energy callable: the mesh `S` is carried only inside the cochain
wrappers, so the embedding keeps the boundary nodes, the penalty
coefficient gamma and the bound callable. -/
structure ObjFunction where
  bnodes : List ℕ
  gamma : ℚ
  energy_func : Vec → Vec → F

/-- ObjFunction.total_energy (lines 61-66):
penalty = 0.5*gamma*jnp.sum((vec_x[bnodes] - vec_bvalues)**2);
energy = energy_func(c, fk) + penalty. -/
def ObjFunction.total_energy (obj : ObjFunction) (vec_x vec_y vec_bvalues : Vec) : F :=
  fadd (obj.energy_func vec_x vec_y)
    (fmul (some ((1 / 2) * obj.gamma))
      (fsum ((vsub (gather vec_x obj.bnodes) vec_bvalues).map fsq)))

/-- The external scipy.optimize.minimize call (lines 106-107), as an
oracle: given the objective (from which the jacobian at line 94 is also
derived), the start point x0 and the per-sample arguments (vec_y,
vec_bvalues), it returns the point `.x` the optimizer reports. -/
abbrev Minimizer : Type := ObjFunction → Vec → Vec → Vec → Vec

/-- Lines 113-114: `if current_err > 100 or math.isnan(current_err):
current_err = 100`. For floats, NaN > 100 is false, so the isnan branch
catches NaN; both cases set the error to 100. -/
def clampPy (e : F) : F :=
  match e with
  | none => some 100
  | some q => if 100 < q then some 100 else some q

/-- The clamped value as a plain rational: NaN and values above 100 become
100, the rest pass through. -/
def clampVal (e : F) : ℚ :=
  match e with
  | none => 100
  | some q => if 100 < q then 100 else q

/-- eval_MSE (lines 69-123). The loop enumerates y; per sample it solves
`minimize(fun=obj.total_energy, x0=u_0.coeffs, args=(vec_y, vec_bvalues))`,
accumulates the clamped squared error against X[i], and collects the
solved fields. With return_best_sol it returns the list of solved fields,
otherwise the accumulated error times 1/X.shape[0]. -/
def eval_MSE (individual : Individual) (X y bvalues : List Vec) (bnodes : List ℕ)
    (gamma : ℚ) (u_0 : Vec) (compile : Individual → Vec → Vec → F)
    (minimize : Minimizer) (return_best_sol : Bool) : F ⊕ List Vec :=
  if return_best_sol then
    Sum.inr ((List.range y.length).map (fun i =>
      minimize ⟨bnodes, gamma, compile individual⟩ u_0 (y.getD i []) (bvalues.getD i [])))
  else
    Sum.inl (fmul
      ((List.range y.length).foldl (fun acc i =>
        fadd acc (clampPy (normSq (vsub
          (minimize ⟨bnodes, gamma, compile individual⟩ u_0 (y.getD i []) (bvalues.getD i []))
          (X.getD i []))))) (some 0))
      (some (1 / (X.length : ℚ))))

/-- The solved field of sample i: the point the optimizer reports for the
objective bound to the compiled individual, started from u_0 (line 106). -/
def solvedField (individual : Individual) (y bvalues : List Vec) (bnodes : List ℕ)
    (gamma : ℚ) (u_0 : Vec) (compile : Individual → Vec → Vec → F)
    (minimize : Minimizer) (i : ℕ) : Vec :=
  minimize ⟨bnodes, gamma, compile individual⟩ u_0 (y.getD i []) (bvalues.getD i [])

/-- The partition-level error as the spec words it: the mean over the
samples of the per-sample squared Euclidean distance between the solved
field and the target field, each per-sample error clamped to 100 when it
is NaN or exceeds 100. -/
def meanClampedError (individual : Individual) (X y bvalues : List Vec) (bnodes : List ℕ)
    (gamma : ℚ) (u_0 : Vec) (compile : Individual → Vec → Vec → F)
    (minimize : Minimizer) : ℚ :=
  (∑ i in Finset.range y.length,
    clampVal (normSq (vsub
      (solvedField individual y bvalues bnodes gamma u_0 compile minimize i)
      (X.getD i [])))) / (y.length : ℚ)

lemma clampPy_eq_clampVal (e : F) : clampPy e = some (clampVal e) := by
  cases e with
  | none => rfl
  | some q =>
      simp only [clampPy, clampVal]
      split <;> rfl

lemma foldl_fadd_clamp (g : ℕ → F) (n : ℕ) :
    (List.range n).foldl (fun acc i => fadd acc (clampPy (g i))) (some 0)
      = some (∑ i in Finset.range n, clampVal (g i)) := by
  induction n with
  | zero => simp [fadd]
  | succ n ih =>
      rw [List.range_succ, List.foldl_append, ih, List.foldl_cons, List.foldl_nil,
        clampPy_eq_clampVal, Finset.sum_range_succ]
      rfl

lemma eval_MSE_false_eq (individual : Individual) (X y bvalues : List Vec)
    (bnodes : List ℕ) (gamma : ℚ) (u_0 : Vec) (compile : Individual → Vec → Vec → F)
    (minimize : Minimizer) :
    eval_MSE individual X y bvalues bnodes gamma u_0 compile minimize false
      = Sum.inl (some ((∑ i in Finset.range y.length,
          clampVal (normSq (vsub
            (solvedField individual y bvalues bnodes gamma u_0 compile minimize i)
            (X.getD i [])))) * (1 / (X.length : ℚ)))) := by
  simp only [eval_MSE, Bool.false_eq_true, if_false, solvedField, foldl_fadd_clamp]
  rfl

/-- C1: for every individual and dataset partition (X, y, bvalues of equal
sample count, nonempty), eval_MSE without per-sample output returns the
mean over the samples of the per-sample squared Euclidean distance between
the solved field and the target field, each per-sample error that is NaN
or exceeds 100 replaced by exactly 100 before summing. -/
theorem eval_MSE_clamped_mean (individual : Individual) (X y bvalues : List Vec)
    (bnodes : List ℕ) (gamma : ℚ) (u_0 : Vec) (compile : Individual → Vec → Vec → F)
    (minimize : Minimizer) (hlen : X.length = y.length) (hn : 0 < y.length) :
    eval_MSE individual X y bvalues bnodes gamma u_0 compile minimize false
      = Sum.inl (some
          (meanClampedError individual X y bvalues bnodes gamma u_0 compile minimize)) := by
  rw [eval_MSE_false_eq, meanClampedError, hlen, mul_one_div]

/-- Concrete individual used by witnesses. -/
def wIndividual : Individual := ⟨[], 1⟩

/-- Concrete compile oracle used by witnesses: the individual compiles to
the zero energy. -/
def wCompile : Individual → Vec → Vec → F := fun _ _ _ => some 0

/-- Concrete minimize oracle used by witnesses: the optimizer reports the
start point (a legitimate L-BFGS-B outcome). -/
def wMinimize : Minimizer := fun _ x0 _ _ => x0

theorem eval_MSE_clamped_mean_witness :
    eval_MSE wIndividual [[some 1]] [[some 0]] [[some 0]] [0] 1000 [some 0]
        wCompile wMinimize false
      = Sum.inl (some (meanClampedError wIndividual [[some 1]] [[some 0]] [[some 0]]
          [0] 1000 [some 0] wCompile wMinimize)) :=
  eval_MSE_clamped_mean wIndividual [[some 1]] [[some 0]] [[some 0]] [0] 1000 [some 0]
    wCompile wMinimize rfl (by decide)

/-- The Objective Function evaluation as the spec words it:
`energy_callable(candidate_field, sample_input)
 + 0.5·γ·Σ(candidate_field[boundary_nodes] − boundary_values)²`,
the sum running over the boundary-node positions. Written from the spec,
to be compared with the source definition `ObjFunction.total_energy`. -/
def spec_total_energy (ef : Vec → Vec → F) (bnodes : List ℕ) (gamma : ℚ)
    (x y bv : Vec) : F :=
  fadd (ef x y)
    (fmul (some ((1 / 2) * gamma))
      ((List.range bnodes.length).foldr (fun k acc =>
        fadd (fsq (fsub (x.getD (bnodes.getD k 0) none) (bv.getD k none))) acc)
        (some 0)))

lemma gather_sum_eq (x : Vec) :
    ∀ (bnodes : List ℕ) (bv : Vec), bv.length = bnodes.length →
    fsum ((vsub (gather x bnodes) bv).map fsq)
      = (List.range bnodes.length).foldr (fun k acc =>
          fadd (fsq (fsub (x.getD (bnodes.getD k 0) none) (bv.getD k none))) acc)
          (some 0)
  | [], bv, _ => by simp [gather, vsub, fsum]
  | b :: bs, bv, h => by
      cases bv with
      | nil => simp at h
      | cons v vs =>
          have ih := gather_sum_eq x bs vs (by simpa using h)
          simp only [gather, List.map_cons, vsub, List.zipWith_cons_cons, fsum,
            List.foldr_cons, List.length_cons, List.range_succ_eq_map,
            List.foldr_map, List.getD_cons_succ, List.getD_cons_zero]
          simp only [fsum, vsub, gather, List.foldr_map] at ih
          rw [ih]

/-- C2: ObjFunction.total_energy returns exactly the spec formula
energy(x, y) + 0.5·γ·Σ over boundary nodes of (x[node] − bvalue)², with no
other terms; the embedding is a pure function of the instance fields
(bnodes, gamma, bound energy callable), so the bound state of the instance
is untouched by evaluation. -/
theorem total_energy_matches_spec (obj : ObjFunction) (vec_x vec_y vec_bvalues : Vec)
    (hlen : vec_bvalues.length = obj.bnodes.length) :
    obj.total_energy vec_x vec_y vec_bvalues
      = spec_total_energy obj.energy_func obj.bnodes obj.gamma vec_x vec_y vec_bvalues := by
  unfold ObjFunction.total_energy spec_total_energy
  rw [gather_sum_eq vec_x obj.bnodes vec_bvalues hlen]

theorem total_energy_matches_spec_witness :
    (ObjFunction.mk [0] 1000 (fun _ _ => some 3)).total_energy
        [some 2] [some 5] [some 1]
      = spec_total_energy (fun _ _ => some 3) [0] 1000 [some 2] [some 5] [some 1] :=
  total_energy_matches_spec ⟨[0], 1000, fun _ _ => some 3⟩ [some 2] [some 5] [some 1] rfl

/-- Scanner for Python str.count: at each position, if the pattern starts
there, count one occurrence and resume after it (non-overlapping),
otherwise move one character on. Only called with a nonempty pattern. -/
def countOccGo (pat : List Char) : List Char → ℕ
  | [] => 0
  | c :: t =>
      if pat.isPrefixOf (c :: t) then countOccGo pat (List.drop (pat.length - 1) t) + 1
      else countOccGo pat t
termination_by l => l.length
decreasing_by
  all_goals simp [List.length_drop]
  omega

/-- Python `s.count(pat)` (line 151): the number of non-overlapping
occurrences of pat in s; for the empty pattern Python returns len(s)+1. -/
def countOcc (pat s : List Char) : ℕ :=
  if pat.length = 0 then s.length + 1 else countOccGo pat s

/-- The penalty configuration dictionary (lines 147-154): the "method" and
"reg_param" keys. -/
structure Penalty where
  method : String
  reg_param : ℚ

/-- The 1-tuple `(objval,)` that eval_fitness returns (line 158). -/
structure FitTuple where
  val : F
deriving DecidableEq

/-- Python max over a list of naturals. Python max raises on an empty
list; on a nonempty list of naturals it agrees with folding Nat.max from
0, which is the form used here (the program's primitives list is built
from the nonempty primitive registry, so the call never sees []). -/
def pyMax (l : List ℕ) : ℕ := l.foldl Nat.max 0

/-- eval_fitness (lines 126-158): evaluates eval_MSE with the default
return_best_sol=False, then adds the configured penalty: "primitive" adds
reg_param times the maximal count of any tracked primitive string in
str(individual); "length" adds reg_param times len(individual); anything
else adds nothing. The result is wrapped as a 1-tuple. -/
def eval_fitness (individual : Individual) (X y bvalues : List Vec) (bnodes : List ℕ)
    (gamma : ℚ) (u_0 : Vec) (penalty : Penalty) (primitives_strings : List (List Char))
    (compile : Individual → Vec → Vec → F) (minimize : Minimizer) : FitTuple :=
  let total_err :=
    match eval_MSE individual X y bvalues bnodes gamma u_0 compile minimize false with
    | Sum.inl e => e
    | Sum.inr _ => none
  if penalty.method = "primitive" then
    ⟨fadd total_err (some (penalty.reg_param *
      (pyMax (primitives_strings.map (fun s => countOcc s individual.serialized)) : ℚ)))⟩
  else if penalty.method = "length" then
    ⟨fadd total_err (some (penalty.reg_param * (individual.size : ℚ)))⟩
  else
    ⟨total_err⟩

lemma nat_zero_max (a : ℕ) : Nat.max 0 a = a := max_eq_right (Nat.zero_le a)

lemma nat_max_assoc (a b c : ℕ) :
    Nat.max (Nat.max a b) c = Nat.max a (Nat.max b c) := max_assoc a b c

lemma foldl_max_acc : ∀ (l : List ℕ) (a : ℕ), l.foldl Nat.max a = Nat.max a (l.foldl Nat.max 0)
  | [], a => by simp
  | x :: t, a => by
      rw [List.foldl_cons, List.foldl_cons, foldl_max_acc t (Nat.max a x),
        foldl_max_acc t (Nat.max 0 x), nat_zero_max, nat_max_assoc]

lemma le_pyMax (l : List ℕ) : ∀ c ∈ l, c ≤ pyMax l := by
  induction l with
  | nil => intro c hc; cases hc
  | cons x t ih =>
      intro c hc
      rw [pyMax, List.foldl_cons, foldl_max_acc, nat_zero_max]
      rcases List.mem_cons.mp hc with h | h
      · exact h ▸ le_max_left _ _
      · exact le_trans (ih c h) (le_max_right _ _)

lemma pyMax_mem : ∀ l : List ℕ, l ≠ [] → pyMax l ∈ l
  | [], h => absurd rfl h
  | x :: t, _ => by
      rw [pyMax, List.foldl_cons, foldl_max_acc, nat_zero_max]
      by_cases ht : t = []
      · subst ht
        rw [show Nat.max x (List.foldl Nat.max 0 []) = x from max_eq_left (Nat.zero_le x)]
        exact List.mem_cons_self _ _
      · have hm := pyMax_mem t ht
        rcases Nat.le_total x (t.foldl Nat.max 0) with h | h
        · rw [show Nat.max x (t.foldl Nat.max 0) = t.foldl Nat.max 0 from max_eq_right h]
          exact List.mem_cons_of_mem _ hm
        · rw [show Nat.max x (t.foldl Nat.max 0) = x from max_eq_left h]
          exact List.mem_cons_self _ _

lemma eval_fitness_err_eq (individual : Individual) (X y bvalues : List Vec)
    (bnodes : List ℕ) (gamma : ℚ) (u_0 : Vec) (penalty : Penalty)
    (primitives_strings : List (List Char)) (compile : Individual → Vec → Vec → F)
    (minimize : Minimizer) (hlen : X.length = y.length) :
    eval_fitness individual X y bvalues bnodes gamma u_0 penalty primitives_strings
        compile minimize
      = (if penalty.method = "primitive" then
          ⟨fadd (some (meanClampedError individual X y bvalues bnodes gamma u_0 compile
              minimize))
            (some (penalty.reg_param *
              (pyMax (primitives_strings.map
                (fun s => countOcc s individual.serialized)) : ℚ)))⟩
        else if penalty.method = "length" then
          ⟨fadd (some (meanClampedError individual X y bvalues bnodes gamma u_0 compile
              minimize))
            (some (penalty.reg_param * (individual.size : ℚ)))⟩
        else
          ⟨some (meanClampedError individual X y bvalues bnodes gamma u_0 compile
            minimize)⟩) := by
  rw [eval_fitness, eval_MSE_false_eq]
  have h : (∑ i in Finset.range y.length,
      clampVal (normSq (vsub
        (solvedField individual y bvalues bnodes gamma u_0 compile minimize i)
        (X.getD i [])))) * (1 / (X.length : ℚ))
      = meanClampedError individual X y bvalues bnodes gamma u_0 compile minimize := by
    rw [meanClampedError, hlen, mul_one_div]
  simp only [h]

/-- C4: eval_fitness returns the partition error plus exactly one penalty
term selected by the configured method: for "primitive", the coefficient
times the maximum over the tracked primitive strings of the number of
occurrences of that string in the serialized individual; for "length",
the coefficient times the node count of the tree; otherwise zero. The
result is the 1-tuple of that scalar. -/
theorem eval_fitness_penalty_modes (individual : Individual) (X y bvalues : List Vec)
    (bnodes : List ℕ) (gamma : ℚ) (u_0 : Vec) (penalty : Penalty)
    (primitives_strings : List (List Char)) (compile : Individual → Vec → Vec → F)
    (minimize : Minimizer) (hlen : X.length = y.length) (hn : 0 < y.length)
    (hprims : primitives_strings ≠ []) :
    (penalty.method = "primitive" →
      ∃ m : ℕ, (∃ s ∈ primitives_strings, countOcc s individual.serialized = m)
        ∧ (∀ s ∈ primitives_strings, countOcc s individual.serialized ≤ m)
        ∧ eval_fitness individual X y bvalues bnodes gamma u_0 penalty
            primitives_strings compile minimize
          = ⟨some (meanClampedError individual X y bvalues bnodes gamma u_0 compile
              minimize + penalty.reg_param * (m : ℚ))⟩)
    ∧ (penalty.method = "length" →
      eval_fitness individual X y bvalues bnodes gamma u_0 penalty
          primitives_strings compile minimize
        = ⟨some (meanClampedError individual X y bvalues bnodes gamma u_0 compile
            minimize + penalty.reg_param * (individual.size : ℚ))⟩)
    ∧ (penalty.method ≠ "primitive" ∧ penalty.method ≠ "length" →
      eval_fitness individual X y bvalues bnodes gamma u_0 penalty
          primitives_strings compile minimize
        = ⟨some (meanClampedError individual X y bvalues bnodes gamma u_0 compile
            minimize)⟩) := by
  refine ⟨fun hp => ?_, fun hl => ?_, fun ⟨h1, h2⟩ => ?_⟩
  · refine ⟨pyMax (primitives_strings.map (fun s => countOcc s individual.serialized)),
      ?_, ?_, ?_⟩
    · have hmem := pyMax_mem
        (primitives_strings.map (fun s => countOcc s individual.serialized))
        (by simpa using hprims)
      rcases List.mem_map.mp hmem with ⟨s, hs, hval⟩
      exact ⟨s, hs, hval⟩
    · intro s hs
      exact le_pyMax _ _ (List.mem_map_of_mem _ hs)
    · rw [eval_fitness_err_eq individual X y bvalues bnodes gamma u_0 penalty
        primitives_strings compile minimize hlen]
      rw [if_pos hp]
      rfl
  · rw [eval_fitness_err_eq individual X y bvalues bnodes gamma u_0 penalty
      primitives_strings compile minimize hlen]
    rw [if_neg (by rw [hl]; decide), if_pos hl]
    rfl
  · rw [eval_fitness_err_eq individual X y bvalues bnodes gamma u_0 penalty
      primitives_strings compile minimize hlen]
    rw [if_neg h1, if_neg h2]

/-- Concrete penalty configurations for the witnesses. -/
def wPenaltyPrimitive : Penalty := ⟨"primitive", 2⟩

theorem eval_fitness_penalty_modes_witness :
    (wPenaltyPrimitive.method = "primitive" →
      ∃ m : ℕ, (∃ s ∈ [['a']], countOcc s wIndividual.serialized = m)
        ∧ (∀ s ∈ [['a']], countOcc s wIndividual.serialized ≤ m)
        ∧ eval_fitness wIndividual [[some 1]] [[some 0]] [[some 0]] [0] 1000 [some 0]
            wPenaltyPrimitive [['a']] wCompile wMinimize
          = ⟨some (meanClampedError wIndividual [[some 1]] [[some 0]] [[some 0]] [0]
              1000 [some 0] wCompile wMinimize + wPenaltyPrimitive.reg_param * (m : ℚ))⟩)
    ∧ (wPenaltyPrimitive.method = "length" →
      eval_fitness wIndividual [[some 1]] [[some 0]] [[some 0]] [0] 1000 [some 0]
          wPenaltyPrimitive [['a']] wCompile wMinimize
        = ⟨some (meanClampedError wIndividual [[some 1]] [[some 0]] [[some 0]] [0]
            1000 [some 0] wCompile wMinimize
          + wPenaltyPrimitive.reg_param * (wIndividual.size : ℚ))⟩)
    ∧ (wPenaltyPrimitive.method ≠ "primitive" ∧ wPenaltyPrimitive.method ≠ "length" →
      eval_fitness wIndividual [[some 1]] [[some 0]] [[some 0]] [0] 1000 [some 0]
          wPenaltyPrimitive [['a']] wCompile wMinimize
        = ⟨some (meanClampedError wIndividual [[some 1]] [[some 0]] [[some 0]] [0]
            1000 [some 0] wCompile wMinimize)⟩) :=
  eval_fitness_penalty_modes wIndividual [[some 1]] [[some 0]] [[some 0]] [0] 1000
    [some 0] wPenaltyPrimitive [['a']] wCompile wMinimize rfl (by decide) (by decide)

/-- C10: a penalty configuration whose method is neither "primitive" nor
"length" silently applies no penalty: eval_fitness returns the raw
partition error (as a 1-tuple), and no configuration error of any kind is
raised (the embedding is total on such configurations). -/
theorem eval_fitness_unknown_method_no_penalty (individual : Individual)
    (X y bvalues : List Vec) (bnodes : List ℕ) (gamma : ℚ) (u_0 : Vec)
    (penalty : Penalty) (primitives_strings : List (List Char))
    (compile : Individual → Vec → Vec → F) (minimize : Minimizer)
    (hlen : X.length = y.length) (hn : 0 < y.length)
    (h1 : penalty.method ≠ "primitive") (h2 : penalty.method ≠ "length") :
    eval_fitness individual X y bvalues bnodes gamma u_0 penalty primitives_strings
        compile minimize
      = ⟨some (meanClampedError individual X y bvalues bnodes gamma u_0 compile
          minimize)⟩ := by
  rw [eval_fitness_err_eq individual X y bvalues bnodes gamma u_0 penalty
    primitives_strings compile minimize hlen]
  rw [if_neg h1, if_neg h2]

/-- Concrete misspelled penalty configuration for the C10 witness. -/
def wPenaltyTypo : Penalty := ⟨"primitiv", 2⟩

theorem eval_fitness_unknown_method_no_penalty_witness :
    eval_fitness wIndividual [[some 1]] [[some 0]] [[some 0]] [0] 1000 [some 0]
        wPenaltyTypo [['a']] wCompile wMinimize
      = ⟨some (meanClampedError wIndividual [[some 1]] [[some 0]] [[some 0]] [0] 1000
          [some 0] wCompile wMinimize)⟩ :=
  eval_fitness_unknown_method_no_penalty wIndividual [[some 1]] [[some 0]] [[some 0]]
    [0] 1000 [some 0] wPenaltyTypo [['a']] wCompile wMinimize rfl (by decide)
    (by decide) (by decide)

/-- C6: the list of solved fields is exactly one oracle call per sample,
each started from the same fixed u_0 (never from a previous sample's
solution, which could only enter through the x0 argument) and returned
as-is: whatever point the optimizer reports is the list entry, with no
retry and no convergence check between the oracle and the returned value.
The statement quantifies over every possible minimize oracle, so no
property of the reported point is assumed or filtered; the second
conjunct adds that the solved fields do not depend on the targets X at
all. -/
theorem eval_MSE_fixed_start_passthrough (individual : Individual)
    (X Xother y bvalues : List Vec) (bnodes : List ℕ) (gamma : ℚ) (u_0 : Vec)
    (compile : Individual → Vec → Vec → F) (minimize : Minimizer) :
    eval_MSE individual X y bvalues bnodes gamma u_0 compile minimize true
      = Sum.inr ((List.range y.length).map
          (solvedField individual y bvalues bnodes gamma u_0 compile minimize))
    ∧ eval_MSE individual X y bvalues bnodes gamma u_0 compile minimize true
      = eval_MSE individual Xother y bvalues bnodes gamma u_0 compile minimize true :=
  ⟨rfl, rfl⟩

/-- C8: with per-sample output enabled, eval_MSE returns one solved field
per sample of the partition, in partition order (entry i is the solve for
sample i), and each solved field has the length of the start point u_0,
which the caller passes with mesh-node length; the optimizer contract
that the reported point has the shape of x0 is the hypothesis hmin. -/
theorem eval_MSE_best_sols_shape (individual : Individual) (X y bvalues : List Vec)
    (bnodes : List ℕ) (gamma : ℚ) (u_0 : Vec) (compile : Individual → Vec → Vec → F)
    (minimize : Minimizer) (num_nodes : ℕ)
    (hmin : ∀ obj x0 vy vb, (minimize obj x0 vy vb).length = x0.length)
    (hu : u_0.length = num_nodes) :
    ∃ sols : List Vec,
      eval_MSE individual X y bvalues bnodes gamma u_0 compile minimize true
        = Sum.inr sols
      ∧ sols.length = y.length
      ∧ (∀ i < y.length, sols.getD i []
          = solvedField individual y bvalues bnodes gamma u_0 compile minimize i)
      ∧ ∀ i < y.length, (sols.getD i []).length = num_nodes := by
  refine ⟨(List.range y.length).map
    (solvedField individual y bvalues bnodes gamma u_0 compile minimize), rfl,
    by simp, fun i hi => ?_, fun i hi => ?_⟩
  · rw [List.getD_eq_getElem?_getD, List.getElem?_map, List.getElem?_range hi]
    rfl
  · rw [List.getD_eq_getElem?_getD, List.getElem?_map, List.getElem?_range hi]
    show (solvedField individual y bvalues bnodes gamma u_0 compile minimize i).length
      = num_nodes
    rw [solvedField, hmin, hu]

theorem eval_MSE_best_sols_shape_witness :
    ∃ sols : List Vec,
      eval_MSE wIndividual [[some 1]] [[some 0]] [[some 0]] [0] 1000 [some 0]
          wCompile wMinimize true
        = Sum.inr sols
      ∧ sols.length = ([[some 0]] : List Vec).length
      ∧ (∀ i < ([[some 0]] : List Vec).length, sols.getD i []
          = solvedField wIndividual [[some 0]] [[some 0]] [0] 1000 [some 0]
              wCompile wMinimize i)
      ∧ ∀ i < ([[some 0]] : List Vec).length, (sols.getD i []).length = 1 :=
  eval_MSE_best_sols_shape wIndividual [[some 1]] [[some 0]] [[some 0]] [0] 1000
    [some 0] wCompile wMinimize 1 (fun _ _ _ _ => rfl) rfl

/-- A compiled energy callable. -/
abbrev EnergyFunc : Type := Vec → Vec → F

/-- Exception-level embedding of eval_MSE (lines 69-123): toolbox.compile
(line 87) and any objective evaluation inside the scipy minimize call can
raise (an ill-typed or degenerate expression). eval_MSE contains no
try/except, so the Except monad here propagates every such exception to
the caller unchanged; the error type is Unit since only propagation
matters. -/
def eval_MSE_exc (individual : Individual) (X y bvalues : List Vec) (bnodes : List ℕ)
    (gamma : ℚ) (u_0 : Vec) (compile : Individual → Except Unit EnergyFunc)
    (minimize : ObjFunction → Vec → Vec → Vec → Except Unit Vec)
    (return_best_sol : Bool) : Except Unit (F ⊕ List Vec) := do
  let energy_func ← compile individual
  let obj : ObjFunction := ⟨bnodes, gamma, energy_func⟩
  let res ← (List.range y.length).foldlM (fun (acc : F × List Vec) i => do
      let x ← minimize obj u_0 (y.getD i []) (bvalues.getD i [])
      pure (fadd acc.1 (clampPy (normSq (vsub x (X.getD i [])))), acc.2 ++ [x]))
    ((some 0 : F), ([] : List Vec))
  if return_best_sol then pure (Sum.inr res.2)
  else pure (Sum.inl (fmul res.1 (some (1 / (X.length : ℚ)))))

/-- Exception-level embedding of eval_fitness (lines 126-158): it calls
eval_MSE and adds the penalty; it, too, contains no try/except, so an
exception raised below it propagates. -/
def eval_fitness_exc (individual : Individual) (X y bvalues : List Vec)
    (bnodes : List ℕ) (gamma : ℚ) (u_0 : Vec) (penalty : Penalty)
    (primitives_strings : List (List Char))
    (compile : Individual → Except Unit EnergyFunc)
    (minimize : ObjFunction → Vec → Vec → Vec → Except Unit Vec) :
    Except Unit FitTuple := do
  let r ← eval_MSE_exc individual X y bvalues bnodes gamma u_0 compile minimize false
  let total_err := match r with
    | Sum.inl e => e
    | Sum.inr _ => none
  if penalty.method = "primitive" then
    pure ⟨fadd total_err (some (penalty.reg_param *
      (pyMax (primitives_strings.map (fun s => countOcc s individual.serialized)) : ℚ)))⟩
  else if penalty.method = "length" then
    pure ⟨fadd total_err (some (penalty.reg_param * (individual.size : ℚ)))⟩
  else
    pure ⟨total_err⟩

/-- A compile oracle that raises on every individual: the behaviour of
toolbox.compile on a structurally invalid expression. -/
def raisingCompile : Individual → Except Unit EnergyFunc := fun _ => Except.error ()

/-- A minimize oracle that reports the start point and never raises. -/
def okMinimize : ObjFunction → Vec → Vec → Vec → Except Unit Vec :=
  fun _ x0 _ _ => Except.ok x0

/-- C3 (evaluating the code at the failing input): when the compiled
energy callable raises, the exception propagates out of eval_fitness
(there is no try/except anywhere in the file), instead of being mapped to
a maximal-penalty fitness: the evaluation produces no fitness value at
all, and whether the run survives is left to the caller. -/
theorem eval_fitness_exc_propagates :
    eval_fitness_exc wIndividual [[some 1]] [[some 0]] [[some 0]] [0] 1000 [some 0]
        wPenaltyPrimitive [['a']] raisingCompile okMinimize
      = Except.error () := rfl

/-- The initial guess for the solution, line 195:
`u_0_vec = 0.01*np.random.rand(num_nodes)`. The program never seeds the
random generator: the seeding block at lines 28-31 is commented out and
`seed=None` is passed to GPproblem.run at line 323, so the draw reads the
ambient state of the process-global RNG, modelled here as a stream
parameter that differs from run to run. -/
def u_0_vec (ambient_rand : ℕ → ℚ) (num_nodes : ℕ) : Vec :=
  (List.range num_nodes).map (fun i => some ((1 / 100) * ambient_rand i))

/-- An ambient RNG stream a first unseeded run may present. -/
def ambientRunA : ℕ → ℚ := fun _ => 0

/-- An ambient RNG stream a second unseeded run may present (both streams
are legitimate outputs of numpy.random.rand, values in [0, 1)). -/
def ambientRunB : ℕ → ℚ := fun _ => 1 / 2

/-- C9 (evaluating the code at the failing input): with the same
configuration but two ambient RNG states, the two runs build different
initial guesses, and already the very first fitness evaluation differs,
so the fitness histories of the two runs are not identical. Seeding is
not explicit end-to-end: nothing in the program fixes the ambient
state. -/
theorem unseeded_runs_differ :
    u_0_vec ambientRunA 1 ≠ u_0_vec ambientRunB 1
    ∧ eval_MSE wIndividual [[some 0]] [[some 0]] [[some 0]] [] 1000
        (u_0_vec ambientRunA 1) wCompile wMinimize false
      = Sum.inl (some 0)
    ∧ eval_MSE wIndividual [[some 0]] [[some 0]] [[some 0]] [] 1000
        (u_0_vec ambientRunB 1) wCompile wMinimize false
      = Sum.inl (some (1 / 40000))
    ∧ eval_MSE wIndividual [[some 0]] [[some 0]] [[some 0]] [] 1000
        (u_0_vec ambientRunA 1) wCompile wMinimize false
      ≠ eval_MSE wIndividual [[some 0]] [[some 0]] [[some 0]] [] 1000
        (u_0_vec ambientRunB 1) wCompile wMinimize false := by
  have hA : eval_MSE wIndividual [[some 0]] [[some 0]] [[some 0]] [] 1000
      (u_0_vec ambientRunA 1) wCompile wMinimize false = Sum.inl (some 0) := by
    norm_num [eval_MSE, List.range_succ, wMinimize, wCompile, u_0_vec, ambientRunA,
      vsub, normSq, fsum, fsq, fmul, fsub, fadd, clampPy]
  have hB : eval_MSE wIndividual [[some 0]] [[some 0]] [[some 0]] [] 1000
      (u_0_vec ambientRunB 1) wCompile wMinimize false = Sum.inl (some (1 / 40000)) := by
    norm_num [eval_MSE, List.range_succ, wMinimize, wCompile, u_0_vec, ambientRunB,
      vsub, normSq, fsum, fsq, fmul, fsub, fadd, clampPy]
  refine ⟨?_, hA, hB, ?_⟩
  · norm_num [u_0_vec, ambientRunA, ambientRunB, List.range_succ]
  · rw [hA, hB]
    intro h
    have h2 := Option.some.inj (Sum.inl.inj h)
    norm_num at h2

/-- An individual as the variation operators observe it: its tree height
(the key attribute the static limit reads, lines 233-236) and an opaque
tag distinguishing distinct trees. -/
structure GPInd where
  height : ℕ
  tag : ℕ
deriving DecidableEq

/-- Modelled from the spec: `gp.staticLimit(key=attrgetter("height"),
max_value=17)` is DEAP library code, not part of this repository's
sources; the spec describes the decorator wrapped around mate and mutate
at lines 233-236 as: any offspring exceeding the cap is discarded and the
corresponding unmodified parent copy is kept in its place. The wrapper
takes the variation operator and its argument individuals and replaces
each over-tall offspring by the parent copy at the same position. -/
def staticLimit (max_value : ℕ) (op : List GPInd → List GPInd)
    (args : List GPInd) : List GPInd :=
  let keep_inds := args
  let new_inds := op args
  (List.range new_inds.length).map (fun i =>
    let ind := new_inds.getD i ⟨0, 0⟩
    if max_value < ind.height then keep_inds.getD i ⟨0, 0⟩ else ind)

/-- C7: for a variation operator returning as many offspring as it took
parents (mate returns 2 of 2, mutate 1 of 1), every individual the
decorated operator emits respects the height cap whenever the parents do
(the replacement is a parent copy, so the bound is inherited); and
positionally, each emitted individual is the offspring when it is within
the cap and the unmodified parent copy at the same position when the
offspring exceeds it. -/
theorem staticLimit_height_bound (max_value : ℕ) (op : List GPInd → List GPInd)
    (args : List GPInd) (hargs : ∀ p ∈ args, p.height ≤ max_value)
    (hlen : (op args).length = args.length) :
    (∀ c ∈ staticLimit max_value op args, c.height ≤ max_value)
    ∧ ∀ i < (op args).length,
        (staticLimit max_value op args).getD i ⟨0, 0⟩
          = (if max_value < ((op args).getD i ⟨0, 0⟩).height
             then args.getD i ⟨0, 0⟩ else (op args).getD i ⟨0, 0⟩) := by
  constructor
  · intro c hc
    rcases List.mem_map.mp hc with ⟨i, hi, hval⟩
    rw [List.mem_range] at hi
    by_cases h : max_value < ((op args).getD i ⟨0, 0⟩).height
    · rw [if_pos h] at hval
      refine hval ▸ hargs _ ?_
      have hi2 : i < args.length := hlen ▸ hi
      rw [List.getD_eq_getElem?_getD, List.getElem?_eq_getElem hi2]
      exact List.getElem_mem _
    · rw [if_neg h] at hval
      rw [← hval]
      exact Nat.le_of_not_lt h
  · intro i hi
    rw [staticLimit, List.getD_eq_getElem?_getD, List.getElem?_map,
      List.getElem?_range hi]
    rfl

/-- A concrete variation operator for the witness: it grows every parent
past the cap, so every offspring is replaced by its parent copy. -/
def wGrowOp : List GPInd → List GPInd := fun l => l.map (fun p => ⟨p.height + 20, p.tag⟩)

theorem staticLimit_height_bound_witness :
    (∀ c ∈ staticLimit 17 wGrowOp [⟨3, 0⟩, ⟨5, 1⟩], c.height ≤ 17)
    ∧ ∀ i < (wGrowOp [⟨3, 0⟩, ⟨5, 1⟩]).length,
        (staticLimit 17 wGrowOp [⟨3, 0⟩, ⟨5, 1⟩]).getD i ⟨0, 0⟩
          = (if 17 < ((wGrowOp [⟨3, 0⟩, ⟨5, 1⟩]).getD i ⟨0, 0⟩).height
             then ([⟨3, 0⟩, ⟨5, 1⟩] : List GPInd).getD i ⟨0, 0⟩
             else (wGrowOp [⟨3, 0⟩, ⟨5, 1⟩]).getD i ⟨0, 0⟩) :=
  staticLimit_height_bound 17 wGrowOp [⟨3, 0⟩, ⟨5, 1⟩] (by decide) (by decide)

/-- Modelled from the spec: the reverse-mode gradient of the boundary
penalty term 0.5*gamma*Σ_k (x[b_k] - v_k)^2 with respect to x. The source
obtains the jacobian of the whole objective by jax autodiff (line 94),
which is external; entry j of this analytic gradient accumulates
gamma*(x[j] - v_k) over the positions k whose boundary node b_k is j. -/
def penaltyGrad (bnodes : List ℕ) (gamma : ℚ) (bv x : Vec) : Vec :=
  (List.range x.length).map (fun j =>
    fmul (some gamma)
      ((List.range bnodes.length).foldr (fun k acc =>
        if bnodes.getD k 0 = j then fadd (fsub (x.getD j none) (bv.getD k none)) acc
        else acc) (some 0)))

/-- Modelled from the spec: one damped gradient step x - eta*grad(x) of
the gradient-based local minimization. -/
def gradStep (gradF : Vec → Vec) (eta : ℚ) (x : Vec) : Vec :=
  vsub x ((gradF x).map (fun g => fmul (some eta) g))

/-- Modelled from the spec: the Inner Solver is a bounded-iteration
gradient-based local minimization started from the initial guess,
returning whatever point it has reached when the iteration budget is
exhausted (no retry, no convergence gate): modelled as `iters` damped
gradient steps. -/
def gradDescent (gradF : Vec → Vec) (eta : ℚ) : ℕ → Vec → Vec
  | 0, x => x
  | n + 1, x => gradDescent gradF eta n (gradStep gradF eta x)

/-- Modelled from the spec: the external scipy L-BFGS-B call instantiated
with the modelled gradient-based solver; the objective's gradient is the
energy gradient (supplied separately, as the source supplies the jitted
jac) plus the boundary-penalty gradient. -/
def innerSolve (egrad : Vec → Vec → Vec) (eta : ℚ) (iters : ℕ) : Minimizer :=
  fun obj x0 vy vb =>
    gradDescent (fun x => vadd (egrad x vy) (penaltyGrad obj.bnodes obj.gamma vb x))
      eta iters x0

lemma gradDescent_fixed (gradF : Vec → Vec) (eta : ℚ) (x : Vec)
    (hx : gradStep gradF eta x = x) : ∀ n, gradDescent gradF eta n x = x
  | 0 => rfl
  | n + 1 => by
      rw [show gradDescent gradF eta (n + 1) x
          = gradDescent gradF eta n (gradStep gradF eta x) from rfl, hx]
      exact gradDescent_fixed gradF eta x hx n

/-- The zero gradient of the identically zero compiled energy. -/
def c5egrad : Vec → Vec → Vec := fun x _ => List.replicate x.length (some 0)

/-- Targets of the 3-sample counterexample dataset: each equal to the
initial guess, so the claimed aggregate (the mean squared distance
between the initial guess and the targets) is 0. -/
def c5X : List Vec := [[some 0], [some 0], [some 0]]

/-- Inputs of the 3-sample counterexample dataset. -/
def c5y : List Vec := [[some 0], [some 0], [some 0]]

/-- Boundary values of the counterexample dataset: they differ from the
initial guess at the boundary node, so the boundary penalty has a nonzero
gradient at the initial guess. -/
def c5bv : List Vec := [[some 1], [some 1], [some 1]]

lemma c5_gradStep_start :
    gradStep (fun x => vadd (c5egrad x [some 0]) (penaltyGrad [0] 1000 [some 1] x))
      (1 / 1000) [some 0] = [some 1] := by
  norm_num [gradStep, penaltyGrad, vadd, vsub, c5egrad, List.range_succ, fmul, fsub, fadd]

lemma c5_gradStep_fixed :
    gradStep (fun x => vadd (c5egrad x [some 0]) (penaltyGrad [0] 1000 [some 1] x))
      (1 / 1000) [some 1] = [some 1] := by
  norm_num [gradStep, penaltyGrad, vadd, vsub, c5egrad, List.range_succ, fmul, fsub, fadd]

lemma c5_solve :
    gradDescent (fun x => vadd (c5egrad x [some 0]) (penaltyGrad [0] 1000 [some 1] x))
      (1 / 1000) 5 [some 0] = [some 1] := by
  rw [show gradDescent
        (fun x => vadd (c5egrad x [some 0]) (penaltyGrad [0] 1000 [some 1] x))
        (1 / 1000) 5 [some 0]
      = gradDescent
        (fun x => vadd (c5egrad x [some 0]) (penaltyGrad [0] 1000 [some 1] x))
        (1 / 1000) 4 (gradStep
          (fun x => vadd (c5egrad x [some 0]) (penaltyGrad [0] 1000 [some 1] x))
          (1 / 1000) [some 0]) from rfl, c5_gradStep_start]
  exact gradDescent_fixed _ _ _ c5_gradStep_fixed 4

/-- C5 (counterexample): the zero energy functional on a 3-sample dataset
over a 1-node mesh whose boundary values differ from the initial guess at
the boundary node. The boundary penalty has a nonzero gradient at the
initial guess, so the modelled gradient-based inner solve moves away from
it: every solved field is [1], not the initial guess [0], and the
aggregate error is 1, while the per-sample squared distance between the
initial guess and each target (the value the claim asserts the aggregate
to be the mean of) is 0. -/
theorem zero_energy_counterexample :
    eval_MSE wIndividual c5X c5y c5bv [0] 1000 [some 0] wCompile
        (innerSolve c5egrad (1 / 1000) 5) true
      = Sum.inr [[some 1], [some 1], [some 1]]
    ∧ eval_MSE wIndividual c5X c5y c5bv [0] 1000 [some 0] wCompile
        (innerSolve c5egrad (1 / 1000) 5) false
      = Sum.inl (some 1)
    ∧ normSq (vsub ([some 0] : Vec) [some 0]) = some 0
    ∧ (Sum.inl (some (1 : ℚ)) : F ⊕ List Vec) ≠ Sum.inl (some (0 : ℚ)) := by
  have hsf : ∀ i, i < 3 →
      solvedField wIndividual c5y c5bv [0] 1000 [some 0] wCompile
        (innerSolve c5egrad (1 / 1000) 5) i = [some 1] := by
    intro i hi
    interval_cases i <;>
      exact c5_solve
  refine ⟨?_, ?_, ?_, ?_⟩
  · rw [show eval_MSE wIndividual c5X c5y c5bv [0] 1000 [some 0] wCompile
        (innerSolve c5egrad (1 / 1000) 5) true
      = Sum.inr ((List.range c5y.length).map
          (solvedField wIndividual c5y c5bv [0] 1000 [some 0] wCompile
            (innerSolve c5egrad (1 / 1000) 5))) from rfl]
    rw [List.map_congr_left (fun i hi =>
      hsf i (by simpa [c5y] using List.mem_range.mp hi))]
    rfl
  · rw [eval_MSE_false_eq]
    have hX : ∀ i, i < 3 → c5X.getD i [] = [some 0] := by
      intro i hi
      interval_cases i <;> rfl
    have hs : (∑ i in Finset.range c5y.length,
        clampVal (normSq (vsub
          (solvedField wIndividual c5y c5bv [0] 1000 [some 0] wCompile
            (innerSolve c5egrad (1 / 1000) 5) i)
          (c5X.getD i [])))) = 3 := by
      rw [show c5y.length = 3 from rfl, Finset.sum_range_succ, Finset.sum_range_succ,
        Finset.sum_range_succ, Finset.sum_range_zero, hsf 0 (by norm_num),
        hsf 1 (by norm_num), hsf 2 (by norm_num), hX 0 (by norm_num),
        hX 1 (by norm_num), hX 2 (by norm_num)]
      norm_num [clampVal, normSq, vsub, fsum, fsq, fmul, fsub, fadd]
    rw [hs]
    norm_num [c5X]
  · norm_num [normSq, vsub, fsum, fsq, fmul, fsub, fadd]
  · intro h
    have h2 := Option.some.inj (Sum.inl.inj h)
    norm_num at h2

lemma map_range_const {α : Type} (c : α) :
    ∀ n : ℕ, (List.range n).map (fun _ => c) = List.replicate n c
  | 0 => rfl
  | n + 1 => by
      rw [List.range_succ, List.map_append, map_range_const c n, List.replicate_succ']
      rfl

lemma vsub_replicate_zero : ∀ x : Vec, (∀ e ∈ x, e ≠ none) →
    vsub x (List.replicate x.length (some 0)) = x
  | [], _ => rfl
  | e :: t, h => by
      obtain ⟨q, hq⟩ := Option.ne_none_iff_exists'.mp (h e (List.mem_cons_self _ _))
      rw [show vsub (e :: t) (List.replicate (e :: t).length (some 0))
          = fsub e (some 0) :: vsub t (List.replicate t.length (some 0)) from rfl]
      rw [vsub_replicate_zero t (fun a ha => h a (List.mem_cons_of_mem _ ha)), hq]
      show some (q - 0) :: t = some q :: t
      rw [sub_zero]

lemma foldr_penalty_zero (x bv : Vec) (j : ℕ) (bnodes : List ℕ) :
    ∀ l : List ℕ, (∀ k ∈ l, bnodes.getD k 0 = j →
        fsub (x.getD j none) (bv.getD k none) = some 0) →
      l.foldr (fun k acc =>
        if bnodes.getD k 0 = j then fadd (fsub (x.getD j none) (bv.getD k none)) acc
        else acc) (some 0) = some 0
  | [], _ => rfl
  | k :: t, h => by
      rw [List.foldr_cons, foldr_penalty_zero x bv j bnodes t
        (fun m hm => h m (List.mem_cons_of_mem _ hm))]
      by_cases hk : bnodes.getD k 0 = j
      · rw [if_pos hk, h k (List.mem_cons_self _ _) hk]
        show some (0 + 0) = some 0
        rw [add_zero]
      · rw [if_neg hk]

lemma penaltyGrad_zero (bnodes : List ℕ) (gamma : ℚ) (bv x : Vec)
    (hbc : ∀ k, k < bnodes.length →
      fsub (x.getD (bnodes.getD k 0) none) (bv.getD k none) = some 0) :
    penaltyGrad bnodes gamma bv x = List.replicate x.length (some 0) := by
  rw [penaltyGrad]
  have h : ∀ j ∈ List.range x.length,
      fmul (some gamma)
        ((List.range bnodes.length).foldr (fun k acc =>
          if bnodes.getD k 0 = j then fadd (fsub (x.getD j none) (bv.getD k none)) acc
          else acc) (some 0)) = (some 0 : F) := by
    intro j _
    rw [foldr_penalty_zero x bv j bnodes (List.range bnodes.length)
      (fun k hk hkj => by
        rw [← hkj]
        exact hbc k (List.mem_range.mp hk))]
    show some (gamma * 0) = some 0
    rw [mul_zero]
  rw [List.map_congr_left h, map_range_const]

lemma innerSolve_stationary (egrad : Vec → Vec → Vec) (eta : ℚ) (iters : ℕ)
    (bnodes : List ℕ) (gamma : ℚ) (ef : Vec → Vec → F) (vy bv x0 : Vec)
    (hegrad : ∀ x v, egrad x v = List.replicate x.length (some 0))
    (hx : ∀ e ∈ x0, e ≠ none)
    (hbc : ∀ k, k < bnodes.length →
      fsub (x0.getD (bnodes.getD k 0) none) (bv.getD k none) = some 0) :
    innerSolve egrad eta iters ⟨bnodes, gamma, ef⟩ x0 vy bv = x0 := by
  have hgrad : vadd (egrad x0 vy) (penaltyGrad bnodes gamma bv x0)
      = List.replicate x0.length (some 0) := by
    rw [hegrad, penaltyGrad_zero bnodes gamma bv x0 hbc, vadd,
      List.zipWith_replicate']
    show List.replicate x0.length (some (0 + 0)) = _
    rw [add_zero]
  have hstep : gradStep (fun x => vadd (egrad x vy) (penaltyGrad bnodes gamma bv x))
      eta x0 = x0 := by
    rw [gradStep]
    show vsub x0 ((vadd (egrad x0 vy) (penaltyGrad bnodes gamma bv x0)).map
      (fun g => fmul (some eta) g)) = x0
    rw [hgrad, List.map_replicate]
    show vsub x0 (List.replicate x0.length (fmul (some eta) (some 0))) = x0
    rw [show fmul (some eta) (some 0) = (some 0 : F) from by
      show some (eta * 0) = some 0
      rw [mul_zero]]
    exact vsub_replicate_zero x0 hx
  exact gradDescent_fixed _ _ _ hstep iters

/-- C5 (amended): for an individual whose compiled energy functional is
identically zero (zero value and zero gradient), the modelled
gradient-based inner solve returns the initial guess unchanged for every
sample provided the initial guess already satisfies every sample's
boundary values on the boundary nodes (so the penalized objective is
stationary at the guess), and the aggregate error then equals the mean of
the squared Euclidean distances between the initial guess and the
targets, provided each such distance is finite and at most the clamping
threshold 100. -/
theorem zero_energy_returns_initial_guess (individual : Individual)
    (X y bvalues : List Vec) (bnodes : List ℕ) (gamma : ℚ) (u_0 : Vec)
    (compile : Individual → Vec → Vec → F) (egrad : Vec → Vec → Vec)
    (eta : ℚ) (iters : ℕ) (d : ℕ → ℚ)
    (hzero : ∀ u v, compile individual u v = some 0)
    (hegrad : ∀ x v, egrad x v = List.replicate x.length (some 0))
    (hufin : ∀ e ∈ u_0, e ≠ none)
    (hbc : ∀ i, i < y.length → ∀ k, k < bnodes.length →
      u_0.getD (bnodes.getD k 0) none = (bvalues.getD i []).getD k none)
    (hfin : ∀ k, k < bnodes.length → u_0.getD (bnodes.getD k 0) none ≠ none)
    (hlen : X.length = y.length) (hn : 0 < y.length)
    (hd : ∀ i, i < y.length → normSq (vsub u_0 (X.getD i [])) = some (d i))
    (hdle : ∀ i, i < y.length → d i ≤ 100) :
    eval_MSE individual X y bvalues bnodes gamma u_0 compile
        (innerSolve egrad eta iters) true
      = Sum.inr (List.replicate y.length u_0)
    ∧ eval_MSE individual X y bvalues bnodes gamma u_0 compile
        (innerSolve egrad eta iters) false
      = Sum.inl (some ((∑ i in Finset.range y.length, d i) / (y.length : ℚ))) := by
  have hsolve : ∀ i, i < y.length →
      solvedField individual y bvalues bnodes gamma u_0 compile
        (innerSolve egrad eta iters) i = u_0 := by
    intro i hi
    rw [solvedField]
    exact innerSolve_stationary egrad eta iters bnodes gamma (compile individual)
      (y.getD i []) (bvalues.getD i []) u_0 hegrad hufin
      (fun k hk => by
        obtain ⟨q, hq⟩ := Option.ne_none_iff_exists'.mp (hfin k hk)
        rw [hq, ← hbc i hi k hk, hq]
        show some (q - q) = some 0
        rw [sub_self])
  constructor
  · rw [show eval_MSE individual X y bvalues bnodes gamma u_0 compile
        (innerSolve egrad eta iters) true
      = Sum.inr ((List.range y.length).map
          (solvedField individual y bvalues bnodes gamma u_0 compile
            (innerSolve egrad eta iters))) from rfl]
    rw [List.map_congr_left (fun i hi => hsolve i (List.mem_range.mp hi)),
      map_range_const]
  · rw [eval_MSE_false_eq]
    have hsum : (∑ i in Finset.range y.length,
        clampVal (normSq (vsub
          (solvedField individual y bvalues bnodes gamma u_0 compile
            (innerSolve egrad eta iters) i)
          (X.getD i []))))
        = ∑ i in Finset.range y.length, d i := by
      refine Finset.sum_congr rfl (fun i hi => ?_)
      rw [hsolve i (List.mem_range.mp hi), hd i (List.mem_range.mp hi)]
      show (if 100 < d i then (100 : ℚ) else d i) = d i
      rw [if_neg (not_lt.mpr (hdle i (List.mem_range.mp hi)))]
    rw [hsum, hlen, mul_one_div]

theorem zero_energy_returns_initial_guess_witness :
    eval_MSE wIndividual [[some 1], [some 1], [some 1]]
        [[some 0], [some 0], [some 0]] [[some 0], [some 0], [some 0]]
        [0] 1000 [some 0] wCompile (innerSolve c5egrad (1 / 1000) 5) true
      = Sum.inr (List.replicate
          ([[some 0], [some 0], [some 0]] : List Vec).length [some 0])
    ∧ eval_MSE wIndividual [[some 1], [some 1], [some 1]]
        [[some 0], [some 0], [some 0]] [[some 0], [some 0], [some 0]]
        [0] 1000 [some 0] wCompile (innerSolve c5egrad (1 / 1000) 5) false
      = Sum.inl (some ((∑ i in Finset.range
          ([[some 0], [some 0], [some 0]] : List Vec).length, (1 : ℚ))
            / (([[some 0], [some 0], [some 0]] : List Vec).length : ℚ))) :=
  zero_energy_returns_initial_guess wIndividual
    [[some 1], [some 1], [some 1]] [[some 0], [some 0], [some 0]]
    [[some 0], [some 0], [some 0]] [0] 1000 [some 0] wCompile c5egrad
    (1 / 1000) 5 (fun _ => 1)
    (fun _ _ => rfl) (fun _ _ => rfl) (by simp)
    (by
      intro i hi k hk
      rw [show ([[some 0], [some 0], [some 0]] : List Vec).length = 3 from rfl] at hi
      rw [show ([0] : List ℕ).length = 1 from rfl] at hk
      interval_cases i <;> interval_cases k <;> rfl)
    (by
      intro k hk
      rw [show ([0] : List ℕ).length = 1 from rfl] at hk
      interval_cases k <;> simp)
    rfl (by norm_num)
    (by
      intro i hi
      rw [show ([[some 0], [some 0], [some 0]] : List Vec).length = 3 from rfl] at hi
      interval_cases i <;> norm_num [normSq, vsub, fsum, fsq, fmul, fsub, fadd])
    (by
      intro i hi
      norm_num)

end Alpine
